import Mathlib

set_option maxHeartbeats 1000000

namespace AV

/-!
A shallow embedding of `src/dataset_preparation/srunner/scenariomanager/scenario_manager.py`.

The file models, faithfully to the Python source:
  * the `py_trees` node data the module manipulates (`PtNode`, `PtStatus`);
  * `Scenario._extract_nodes_from_tree`, `Scenario.get_criteria`,
    `Scenario.terminate`;
  * `ScenarioManager.run_scenario` / `_tick_scenario` (the per-frame loop);
  * `ScenarioManager.analyze_scenario` (the result aggregator);
  * `SceneGraphExtractor.extract_frame` / `export_data` (the extractor and
    the windowed batch writer);
  * `get_actor_attributes` / `get_actor_display_name`.

Modelling conventions: Python floats are modelled as exact rationals (`ℚ`);
`math.sqrt(d) < 100` is modelled by the equivalent exact comparison
`d < 10000` (justified by lemma `sqrt_lt_hundred_iff` below);
`int(3.6 * math.sqrt s)` is modelled by the exact integer square root
(justified by lemma `floor_sqrt_ratCast` and theorem `attrs_deterministic`);
code that raises (`None.children`) is modelled with `Option`.
-/

/-- `py_trees.common.Status`. -/
inductive PtStatus where
  | INVALID
  | RUNNING
  | SUCCESS
  | FAILURE
  deriving DecidableEq, Repr

/-- A test criterion as `analyze_scenario` reads it: the `optional` flag and
the `test_status` string attribute (compared against the string literals
`"SUCCESS"` and `"ACCEPTABLE"` in the source). -/
structure Criterion where
  optional : Bool
  test_status : String
  deriving DecidableEq, Repr

/-- Everything `ScenarioManager.analyze_scenario` produces: the local
`failure` and `timeout` flags, the verdict string handed to
`ResultOutputProvider` (`none` when the early `return True` skips reporting),
and the function's return value `failure or timeout` (resp. the literal
`True` on the early return). -/
structure AnalyzeResult where
  failure : Bool
  timeout : Bool
  result : Option String
  retval : Bool
  deriving DecidableEq, Repr

/-- One iteration of the criteria loop in `analyze_scenario` (lines 306-313):
the accumulator is the pair `(failure, result)`. -/
def scanCriterion (acc : Bool × String) (c : Criterion) : Bool × String :=
  if c.optional = false ∧ c.test_status ≠ "SUCCESS" ∧ c.test_status ≠ "ACCEPTABLE" then
    (true, "FAILURE")
  else if c.test_status = "ACCEPTABLE" then
    (acc.1, "ACCEPTABLE")
  else
    acc

/-- `ScenarioManager.analyze_scenario` (lines 292-325).  `test_criteria` is
`none` when the scenario was configured without criteria (the source then
returns `True` before any reporting); otherwise the list is the scanned
sequence of criteria (`self.scenario.get_criteria()`).  `timeout_fired`
models `self.scenario.timeout_node.timeout` (the `TimeOut` behaviour lives in
the external `srunner.scenariomanager.timer` module). -/
def analyze_scenario (test_criteria : Option (List Criterion)) (timeout_fired : Bool) :
    AnalyzeResult :=
  match test_criteria with
  | none => { failure := false, timeout := false, result := none, retval := true }
  | some criteria =>
    let scan := criteria.foldl scanCriterion (false, "SUCCESS")
    if timeout_fired = true ∧ scan.1 = false then
      { failure := scan.1, timeout := true, result := some "TIMEOUT", retval := scan.1 || true }
    else
      { failure := scan.1, timeout := false, result := some scan.2, retval := scan.1 || false }

/-- The condition of the `if` in the criteria loop: a non-optional criterion
whose status is neither SUCCESS nor ACCEPTABLE. -/
def badCriterion (c : Criterion) : Prop :=
  c.optional = false ∧ c.test_status ≠ "SUCCESS" ∧ c.test_status ≠ "ACCEPTABLE"

instance : DecidablePred badCriterion := fun c => by
  unfold badCriterion; infer_instance

/-- A `py_trees` behaviour node as this module observes it: its name, whether
it is a `py_trees.composites.Parallel` (the only composite class the module
builds or tests with `isinstance`), its `status`, and its ordered list of
`children`. -/
inductive PtNode : Type where
  | node (name : String) (isParallel : Bool) (status : PtStatus) (children : List PtNode)

/-- The `children` attribute of a node. -/
def PtNode.children : PtNode → List PtNode
  | .node _ _ _ cs => cs

/-- The `status` attribute of a node. -/
def PtNode.status : PtNode → PtStatus
  | .node _ _ s _ => s

/-- Whether the node is a `py_trees.composites.Parallel` instance. -/
def PtNode.isParallel : PtNode → Bool
  | .node _ p _ _ => p

mutual
/-- Number of nodes of a tree (termination measure for the worklist loop). -/
def nodeSize : PtNode → Nat
  | .node _ _ _ cs => 1 + sizeL cs
/-- Total number of nodes of a forest. -/
def sizeL : List PtNode → Nat
  | [] => 0
  | n :: rest => nodeSize n + sizeL rest
end

theorem sizeL_append (a b : List PtNode) : sizeL (a ++ b) = sizeL a + sizeL b := by
  induction a with
  | nil => simp [sizeL]
  | cons n rest ih =>
    show sizeL (n :: (rest ++ b)) = sizeL (n :: rest) + sizeL b
    rw [sizeL, sizeL, ih]
    omega

theorem nodeSize_pos (n : PtNode) : 0 < nodeSize n := by
  cases n with
  | node nm p st cs => simp [nodeSize]

theorem sizeL_nil : sizeL [] = 0 := rfl

theorem sizeL_cons (n : PtNode) (rest : List PtNode) :
    sizeL (n :: rest) = nodeSize n + sizeL rest := by rw [sizeL]

theorem nodeSize_eq (nm : String) (p : Bool) (st : PtStatus) (cs : List PtNode) :
    nodeSize (.node nm p st cs) = 1 + sizeL cs := by rw [nodeSize]

/-- The worklist loop of `Scenario._extract_nodes_from_tree` (lines 78-87):
while some node of the list has children, remove it from the list and append
its children.  (The CPython loop mutates `node_list` while iterating over it
and therefore skips positions, but the enclosing `while more_nodes_exist`
re-runs the pass until no node with children remains, so the loop's final
content is in every case the collection of childless descendants; this
embedding processes the list head-first, which reaches the same fixpoint —
see `flattenWorklist_perm`.) -/
def flattenWorklist : List PtNode → List PtNode
  | [] => []
  | n :: rest =>
    if n.children.isEmpty then n :: flattenWorklist rest
    else flattenWorklist (rest ++ n.children)
termination_by l => sizeL l
decreasing_by
  · have := nodeSize_pos n
    rw [sizeL_cons]
    omega
  · cases n with
    | node nm p st cs =>
      rw [PtNode.children, sizeL_append, sizeL_cons, nodeSize_eq]
      omega

/-- `Scenario._extract_nodes_from_tree` (lines 74-92): flatten the tree into
the list of its childless nodes; if the result is a single
`py_trees.composites.Parallel` node, return the empty list instead. -/
def extract_nodes_from_tree (tree : PtNode) : List PtNode :=
  let node_list := flattenWorklist [tree]
  match node_list with
  | [n] => if n.isParallel then [] else [n]
  | _ => node_list

/-- The childless descendants of the nodes of a forest, in depth-first order
(the reference characterisation of what the worklist loop collects; see
`flattenWorklist_perm`). -/
def leavesL : List PtNode → List PtNode
  | [] => []
  | n :: rest =>
    if n.children.isEmpty then n :: leavesL rest
    else leavesL (n.children ++ rest)
termination_by l => sizeL l
decreasing_by
  · have := nodeSize_pos n
    rw [sizeL_cons]
    omega
  · cases n with
    | node nm p st cs =>
      rw [PtNode.children, sizeL_append, sizeL_cons, nodeSize_eq]
      omega

/-- Apply `node.terminate(py_trees.common.Status.INVALID)` to every childless
node of a forest: the functional rendering of the mutation loop of
`Scenario.terminate` (lines 108-110), whose node list holds exactly the
childless nodes of the tree (`flattenWorklist_perm`). -/
def invalidateLeavesL : List PtNode → List PtNode
  | [] => []
  | .node nm p _ [] :: rest => .node nm p .INVALID [] :: invalidateLeavesL rest
  | .node nm p st (c :: cs) :: rest =>
      .node nm p st (invalidateLeavesL (c :: cs)) :: invalidateLeavesL rest
termination_by l => sizeL l
decreasing_by
  all_goals simp only [sizeL_cons, sizeL_nil, nodeSize_eq]
  all_goals omega

/-- `invalidateLeavesL` on a single tree. -/
def invalidateLeaves (t : PtNode) : PtNode :=
  match t with
  | .node nm p _ [] => .node nm p .INVALID []
  | .node nm p st (c :: cs) => .node nm p st (invalidateLeavesL (c :: cs))

/-- `Scenario.terminate` (lines 101-110): every node in the list computed by
`_extract_nodes_from_tree(self.scenario_tree)` has its status set to INVALID
(when that list is empty, no node is touched). -/
def Scenario.terminate (tree : PtNode) : PtNode :=
  match extract_nodes_from_tree tree with
  | [] => tree
  | _ :: _ => invalidateLeaves tree

/-- `Scenario.get_criteria` (lines 94-99).  `criteria_tree` is `None` when
the scenario was built with `criteria = None`; `_extract_nodes_from_tree`
then evaluates `None.children` and raises `AttributeError`, modelled by
`none`. -/
def get_criteria (criteria_tree : Option PtNode) : Option (List PtNode) :=
  match criteria_tree with
  | none => none
  | some t => some (extract_nodes_from_tree t)

/-- The statuses of the composite (with-children) nodes of a forest, in
prefix order. -/
def internalStatusesL : List PtNode → List PtStatus
  | [] => []
  | .node _ _ _ [] :: rest => internalStatusesL rest
  | .node _ _ st (c :: cs) :: rest =>
      st :: (internalStatusesL (c :: cs) ++ internalStatusesL rest)
termination_by l => sizeL l
decreasing_by
  all_goals simp only [sizeL_cons, sizeL_nil, nodeSize_eq]
  all_goals omega

/-- Every node of a forest, the roots included, in prefix order. -/
def allNodesL : List PtNode → List PtNode
  | [] => []
  | .node nm p st cs :: rest => .node nm p st cs :: (allNodesL cs ++ allNodesL rest)
termination_by l => sizeL l
decreasing_by
  all_goals simp only [sizeL_cons, sizeL_nil, nodeSize_eq]
  all_goals omega

/-- A CARLA snapshot timestamp as the loop reads it: `elapsed_seconds`
(a float, modelled as an exact rational) and the integer `frame` id. -/
structure Timestamp where
  elapsed_seconds : ℚ
  frame : Nat
  deriving DecidableEq, Repr

/-- The `ScenarioManager` state the tick loop manipulates
(`_timestamp_last_run`, `_running`), instrumented with the number of
`self.scenario_tree.tick_once()` calls made and the log of frame ids passed
to `self.se.extract_frame`. -/
structure MgrState where
  timestamp_last_run : ℚ
  running : Bool
  tickCount : Nat
  extractedFrames : List Nat
  deriving DecidableEq, Repr

/-- The manager state at the top of `run_scenario` (after `_reset` set
`_timestamp_last_run = 0.0`, with `_running` just set `True`, line 213). -/
def initMgr : MgrState :=
  { timestamp_last_run := 0, running := true, tickCount := 0, extractedFrames := [] }

/-- `ScenarioManager._tick_scenario` (lines 241-284) with no attached agent:
the scenario tree is ticked only when
`self._timestamp_last_run < timestamp.elapsed_seconds and self._running`;
`statusAfterTick` is the root status the external behaviour-tree engine
reports right after `tick_once()`, and `_running` is cleared unless that
status is RUNNING (lines 274-275). -/
def tick_scenario (s : MgrState) (ts : Timestamp) (statusAfterTick : PtStatus) : MgrState :=
  if s.timestamp_last_run < ts.elapsed_seconds ∧ s.running = true then
    { s with
      timestamp_last_run := ts.elapsed_seconds,
      tickCount := s.tickCount + 1,
      running := if statusAfterTick ≠ PtStatus.RUNNING then false else s.running }
  else s

/-- One iteration of the `while self._running` body of `run_scenario`
(lines 215-226): when the world snapshot produced a timestamp, call
`_tick_scenario(timestamp)` and then — unconditionally — call
`self.se.extract_frame(world, timestamp.frame)`. -/
def loop_iteration (s : MgrState) (ts : Option Timestamp) (statusAfterTick : PtStatus) :
    MgrState :=
  match ts with
  | none => s
  | some t =>
    let s' := tick_scenario s t statusAfterTick
    { s' with extractedFrames := s'.extractedFrames ++ [t.frame] }

/-- The `while self._running` loop of `run_scenario` driven by a given
sequence of observations (the optional snapshot timestamp of the iteration
and the root status after a tick). -/
def run_iterations : MgrState → List (Option Timestamp × PtStatus) → MgrState
  | s, [] => s
  | s, (ts, st) :: rest =>
    if s.running = true then run_iterations (loop_iteration s ts st) rest else s

/-- A 3-component vector (CARLA `Location` / `Vector3D`); float components
are modelled as exact rationals. -/
structure Vec3 where
  x : ℚ
  y : ℚ
  z : ℚ
  deriving DecidableEq, Repr

/-- A CARLA rotation (pitch / yaw / roll angles). -/
structure Rotation3 where
  pitch : ℚ
  yaw : ℚ
  roll : ℚ
  deriving DecidableEq, Repr

/-- A CARLA actor as this module reads it: stable `id`, location (the source
reads it both as `get_transform().location` and as `get_location()`, which
agree at any instant), rotation, velocity, angular velocity and `type_id`. -/
structure Actor where
  id : Nat
  location : Vec3
  rotation : Rotation3
  velocity : Vec3
  angular_velocity : Vec3
  type_id : String
  deriving DecidableEq, Repr

/-- Python `int()` applied to a float: truncation toward zero. -/
def ratTrunc (q : ℚ) : ℤ := if 0 ≤ q then ⌊q⌋ else ⌈q⌉

/-- Python `str.title()` restricted to ASCII cased characters: an alphabetic
character is uppercased when the preceding character is not alphabetic and
lowercased otherwise. -/
def titleGo : Bool → List Char → List Char
  | _, [] => []
  | prevAlpha, c :: cs =>
    (if c.isAlpha then (if prevAlpha then c.toLower else c.toUpper) else c)
      :: titleGo c.isAlpha cs

/-- Python `str.title()` on a whole string. -/
def pythonTitle (s : String) : String := ⟨titleGo false s.toList⟩

/-- `get_actor_display_name` (lines 424-426): replace underscores by dots,
title-case, split on dots, drop the first segment, join with spaces, and
truncate to `truncate` characters with a trailing ellipsis. -/
def get_actor_display_name (actor : Actor) (truncate : Nat) : String :=
  let name := String.intercalate " "
    (((pythonTitle (actor.type_id.replace "_" ".")).splitOn ".").drop 1)
  if name.length > truncate then name.take (truncate - 1) ++ "…" else name

/-- `int(3.6 * math.sqrt (x² + y² + z²))` (lines 405, 416): the value is
nonnegative so `int()` is the floor, and `⌊3.6·√s⌋ = ⌊√((324/25)·s)⌋` is the
integer square root of `⌊(324/25)·s⌋`, exact over ℚ (theorem
`velocity_kmh_int_eq` proves this equal to the real-number formula). -/
def velocity_kmh_int (l : Vec3) : ℤ :=
  Nat.sqrt (Int.toNat ⌊(324/25 : ℚ) * (l.x * l.x + l.y * l.y + l.z * l.z)⌋)

/-- The record `get_actor_attributes` returns (lines 404-422). -/
structure AttrRecord where
  velocity_abs : ℤ
  velocity : ℤ × ℤ × ℤ
  location : ℤ × ℤ × ℤ
  rotation : ℤ × ℤ × ℤ
  ang_velocity : ℤ × ℤ × ℤ
  name : String
  deriving DecidableEq, Repr

/-- `get_actor_attributes` (lines 404-422).  Note the stored rotation order
is `(yaw, roll, pitch)`. -/
def get_actor_attributes (actor : Actor) : AttrRecord :=
  let v_3d := actor.velocity
  let l_3d := actor.location
  let r_3d := actor.rotation
  let a_3d := actor.angular_velocity
  { velocity_abs := velocity_kmh_int v_3d,
    velocity := (ratTrunc v_3d.x, ratTrunc v_3d.y, ratTrunc v_3d.z),
    location := (ratTrunc l_3d.x, ratTrunc l_3d.y, ratTrunc l_3d.z),
    rotation := (ratTrunc r_3d.yaw, ratTrunc r_3d.roll, ratTrunc r_3d.pitch),
    ang_velocity := (ratTrunc a_3d.x, ratTrunc a_3d.y, ratTrunc a_3d.z),
    name := get_actor_display_name actor 250 }

/-- The lane descriptor built from the waypoint (line 371); the waypoint
comes from the external map collaborator, so its fields are taken as data. -/
structure LaneInfo where
  lane_type : String
  lane_width : ℚ
  right_marking : String
  left_marking : String
  deriving DecidableEq, Repr

/-- One entry of `self.framedict` (line 394). -/
structure FrameRecord where
  ego : AttrRecord
  actors : List (Nat × AttrRecord)
  pedestrians : List (Nat × AttrRecord)
  trafficlights : List (Nat × AttrRecord)
  signs : List (Nat × AttrRecord)
  lane : LaneInfo
  deriving DecidableEq, Repr

/-- Python `dict` assignment `d[k] = v` on an insertion-ordered dictionary
represented as an association list: an existing key keeps its position and
gets the new value, a new key is appended at the end. -/
def dictInsert {α : Type} (d : List (Nat × α)) (k : Nat) (v : α) : List (Nat × α) :=
  if k ∈ d.map Prod.fst then
    d.map (fun p => if p.1 = k then (k, v) else p)
  else d ++ [(k, v)]

/-- The `distance` comparison of the source: `math.sqrt dsq < 100` with both
sides nonnegative is equivalent to `dsq < 10000`, exact over ℚ (lemma
`sqrt_lt_hundred_iff`). -/
def distance_lt_100 (l t : Vec3) : Bool :=
  decide ((l.x - t.x) * (l.x - t.x) + (l.y - t.y) * (l.y - t.y)
    + (l.z - t.z) * (l.z - t.z) < 10000)

/-- The world data `extract_frame` reads: the four actor collections the
`filter` calls return, and the lane descriptor at the ego waypoint. -/
structure World where
  vehicles : List Actor
  pedestrians : List Actor
  trafficlights : List Actor
  signs : List Actor
  lane : LaneInfo
  deriving DecidableEq, Repr

/-- One iteration of the vehicle loop (lines 377-380): record the vehicle
when its id differs from the ego id and its distance to the cached ego
transform location `t` is below 100. -/
def vehicleStep (egoId : Nat) (t : Vec3) (acc : List (Nat × AttrRecord)) (v : Actor) :
    List (Nat × AttrRecord) :=
  if v.id ≠ egoId ∧ distance_lt_100 v.location t = true then
    dictInsert acc v.id (get_actor_attributes v)
  else acc

/-- The vehicle loop over the vehicle list. -/
def vehicleLoop (egoId : Nat) (t : Vec3) (vs : List Actor) : List (Nat × AttrRecord) :=
  vs.foldl (vehicleStep egoId t) []

/-- One iteration of the pedestrian / traffic-light / sign loops
(lines 382-392): the check `c.get_location().distance(self.ego.get_location())
< 100` re-evaluates the ego position for every candidate, so the accumulator
carries the dictionary and the running count of those ego-position queries. -/
def candidateStep (egoLoc : Vec3) (acc : List (Nat × AttrRecord) × Nat) (c : Actor) :
    List (Nat × AttrRecord) × Nat :=
  (if distance_lt_100 c.location egoLoc = true then
      dictInsert acc.1 c.id (get_actor_attributes c)
    else acc.1,
   acc.2 + 1)

/-- A pedestrian / traffic-light / sign loop over a candidate list. -/
def candidateLoop (egoLoc : Vec3) (cs : List Actor) : List (Nat × AttrRecord) × Nat :=
  cs.foldl (candidateStep egoLoc) ([], 0)

/-- The result of one `extract_frame` call: the frame record and the number
of times the monitored entity's position was queried during the call. -/
structure ExtractResult where
  record : FrameRecord
  egoPosQueries : Nat
  deriving DecidableEq, Repr

/-- `SceneGraphExtractor.extract_frame` (lines 348-394).  The ego position
queries counted: one `self.ego.get_transform()` (line 350, cached in `t` and
reused by the vehicle distance lambda), one `self.ego.get_location()` inside
the waypoint lookup (line 361), and one `self.ego.get_location()` for every
pedestrian, traffic-light and sign candidate checked (lines 383, 387, 391). -/
def extract_frame (ego : Actor) (w : World) : ExtractResult :=
  let t := ego.location
  let egodict := get_actor_attributes ego
  let actordict := if w.vehicles.length > 1 then vehicleLoop ego.id t w.vehicles else []
  let ped := candidateLoop ego.location w.pedestrians
  let light := candidateLoop ego.location w.trafficlights
  let sign := candidateLoop ego.location w.signs
  { record :=
      { ego := egodict, actors := actordict, pedestrians := ped.1,
        trafficlights := light.1, signs := sign.1, lane := w.lane },
    egoPosQueries := 1 + 1 + ped.2 + light.2 + sign.2 }

/-- The windowed batch writer state: `self.framedict` plus the log of the
files `export_data` wrote (file name and serialised content). -/
structure WriterState where
  framedict : List (Nat × FrameRecord)
  files : List (String × List (Nat × FrameRecord))
  deriving DecidableEq, Repr

/-- The writer state right after `SceneGraphExtractor.__init__`. -/
def initWriter : WriterState := { framedict := [], files := [] }

/-- The file name `export_data` builds (line 400): output directory, first
key of the buffer, a dash, last key, and the `.txt` suffix. -/
def file_name (d : List (Nat × FrameRecord)) : String :=
  "_out/data/" ++ toString ((d.map Prod.fst).headD 0) ++ "-"
    ++ toString ((d.map Prod.fst).getLastD 0) ++ ".txt"

/-- `SceneGraphExtractor.export_data` (lines 398-402): when the buffer holds
exactly 50 entries, serialise them to a file named from the first and last
frame ids in the buffer and clear the buffer. -/
def export_data (s : WriterState) : WriterState :=
  if s.framedict.length = 50 then
    { framedict := [], files := s.files ++ [(file_name s.framedict, s.framedict)] }
  else s

/-- The writer step performed by each `extract_frame` call (lines 394-396):
insert the frame record at the frame id, then run `export_data`. -/
def WriterState.append (s : WriterState) (frame : Nat) (r : FrameRecord) : WriterState :=
  export_data { s with framedict := dictInsert s.framedict frame r }

/-- A sequence of writer appends, in call order. -/
def appendAll (s : WriterState) (l : List (Nat × FrameRecord)) : WriterState :=
  l.foldl (fun st p => st.append p.1 p.2) s

/-- A fixed demo attribute record (used by the writer witness). -/
def defAttr : AttrRecord :=
  { velocity_abs := 0, velocity := (0, 0, 0), location := (0, 0, 0), rotation := (0, 0, 0),
    ang_velocity := (0, 0, 0), name := "Demo" }

/-- A fixed demo frame record (used by the writer witness). -/
def defRecord : FrameRecord :=
  { ego := defAttr, actors := [], pedestrians := [], trafficlights := [], signs := [],
    lane := { lane_type := "Driving", lane_width := 4, right_marking := "Solid",
              left_marking := "Broken" } }

/-- Example lane descriptor. -/
def lane0 : LaneInfo :=
  { lane_type := "Driving", lane_width := 7/2, right_marking := "Solid",
    left_marking := "Broken" }

/-- Demo actor with velocity (10, 0, 0) and location (1.9, −1.9, 0). -/
def demoActor : Actor :=
  { id := 7, location := ⟨19/10, -(19/10), 0⟩, rotation := ⟨0, 0, 0⟩,
    velocity := ⟨10, 0, 0⟩, angular_velocity := ⟨0, 0, 0⟩,
    type_id := "vehicle.tesla.model3" }

/-- Demo monitored (ego) actor at the origin. -/
def egoActor : Actor :=
  { id := 1, location := ⟨0, 0, 0⟩, rotation := ⟨0, 0, 0⟩, velocity := ⟨0, 0, 0⟩,
    angular_velocity := ⟨0, 0, 0⟩, type_id := "vehicle.lincoln.mkz2017" }

/-- Demo pedestrian at distance 5 from the origin. -/
def pedActor : Actor :=
  { id := 2, location := ⟨3, 4, 0⟩, rotation := ⟨0, 0, 0⟩, velocity := ⟨0, 0, 0⟩,
    angular_velocity := ⟨0, 0, 0⟩, type_id := "walker.pedestrian.0001" }

/-- Demo non-ego vehicle at distance 1 from the origin. -/
def soloVehicle : Actor :=
  { id := 9, location := ⟨1, 0, 0⟩, rotation := ⟨0, 0, 0⟩, velocity := ⟨0, 0, 0⟩,
    angular_velocity := ⟨0, 0, 0⟩, type_id := "vehicle.audi.tt" }

/-- Demo world holding one pedestrian and nothing else. -/
def world1 : World :=
  { vehicles := [], pedestrians := [pedActor], trafficlights := [], signs := [],
    lane := lane0 }

/-- Demo world whose vehicle list holds exactly one (non-ego) vehicle. -/
def worldSolo : World :=
  { vehicles := [soloVehicle], pedestrians := [], trafficlights := [], signs := [],
    lane := lane0 }

/-- Example leaf criterion node. -/
def cLeaf : PtNode := .node "criterion" false .RUNNING []

/-- Example childless `Parallel` group. -/
def emptyGroup : PtNode := .node "empty_group" true .RUNNING []

/-- Example criteria tree holding a criterion leaf and a childless group. -/
def criteriaTree0 : PtNode := .node "Test Criteria" true .RUNNING [cLeaf, emptyGroup]

/-- Example nested scenario tree: root group → inner group → leaf. -/
def nestedTree : PtNode :=
  .node "root" true .RUNNING [.node "group" true .RUNNING [.node "leaf" false .RUNNING []]]

end AV

namespace AV

theorem scan_fst_latched (l : List Criterion) (r : String) :
    (l.foldl scanCriterion (true, r)).1 = true := by
  induction l generalizing r with
  | nil => rfl
  | cons c rest ih =>
    simp only [List.foldl_cons, scanCriterion]
    split
    · exact ih "FAILURE"
    · split
      · exact ih "ACCEPTABLE"
      · exact ih r

theorem scan_fst_iff (l : List Criterion) (b : Bool) (r : String) :
    (l.foldl scanCriterion (b, r)).1 = true ↔ b = true ∨ ∃ c ∈ l, badCriterion c := by
  induction l generalizing b r with
  | nil => simp
  | cons c rest ih =>
    have hmem : ∀ P : Prop, (∃ d ∈ c :: rest, badCriterion d) ↔
        badCriterion c ∨ ∃ d ∈ rest, badCriterion d := by
      intro _
      constructor
      · rintro ⟨d, hd, hbd⟩
        rcases List.mem_cons.mp hd with rfl | hd'
        · exact Or.inl hbd
        · exact Or.inr ⟨d, hd', hbd⟩
      · rintro (h | ⟨d, hd, hbd⟩)
        · exact ⟨c, List.mem_cons_self c rest, h⟩
        · exact ⟨d, List.mem_cons_of_mem c hd, hbd⟩
    simp only [List.foldl_cons, scanCriterion]
    by_cases hbad : c.optional = false ∧ c.test_status ≠ "SUCCESS" ∧ c.test_status ≠ "ACCEPTABLE"
    · rw [if_pos hbad]
      constructor
      · intro _; right; exact ⟨c, by simp, hbad⟩
      · intro _; exact scan_fst_latched rest "FAILURE"
    · rw [if_neg hbad]
      have step : ∀ r' : String, ((rest.foldl scanCriterion (b, r')).1 = true
          ↔ b = true ∨ ∃ d ∈ c :: rest, badCriterion d) := by
        intro r'
        rw [ih, hmem True]
        constructor
        · rintro (h | h)
          · exact Or.inl h
          · exact Or.inr (Or.inr h)
        · rintro (h | h | h)
          · exact Or.inl h
          · exact absurd h hbad
          · exact Or.inr h
      by_cases hacc : c.test_status = "ACCEPTABLE"
      · rw [if_pos hacc]; exact step "ACCEPTABLE"
      · rw [if_neg hacc]; exact step r

theorem scan_snd_failure (l : List Criterion)
    (h : ∀ c ∈ l, c.test_status ≠ "ACCEPTABLE") :
    (l.foldl scanCriterion (true, "FAILURE")).2 = "FAILURE" := by
  induction l with
  | nil => rfl
  | cons c rest ih =>
    simp only [List.foldl_cons, scanCriterion]
    have hc : c.test_status ≠ "ACCEPTABLE" := h c (by simp)
    have ih' := ih fun d hd => h d (by simp [hd])
    by_cases hbad : c.optional = false ∧ c.test_status ≠ "SUCCESS" ∧ c.test_status ≠ "ACCEPTABLE"
    · rw [if_pos hbad]; exact ih'
    · rw [if_neg hbad, if_neg hc]; exact ih'

theorem scan_snd_cases (l : List Criterion) (b : Bool) (r : String)
    (h : r = "FAILURE" ∨ r = "ACCEPTABLE") :
    (l.foldl scanCriterion (b, r)).2 = "FAILURE" ∨
      (l.foldl scanCriterion (b, r)).2 = "ACCEPTABLE" := by
  induction l generalizing b r with
  | nil => exact h
  | cons c rest ih =>
    simp only [List.foldl_cons, scanCriterion]
    split
    · exact ih _ _ (Or.inl rfl)
    · split
      · exact ih _ _ (Or.inr rfl)
      · exact ih _ _ h

theorem scan_snd_ne_timeout (l : List Criterion) (b : Bool) (r : String)
    (h : r ≠ "TIMEOUT") :
    (l.foldl scanCriterion (b, r)).2 ≠ "TIMEOUT" := by
  induction l generalizing b r with
  | nil => exact h
  | cons c rest ih =>
    simp only [List.foldl_cons, scanCriterion]
    split
    · exact ih _ _ (by decide)
    · split
      · exact ih _ _ (by decide)
      · exact ih _ _ h

theorem analyze_some_unfold (cs : List Criterion) (tf : Bool) :
    analyze_scenario (some cs) tf =
      (if tf = true ∧ (cs.foldl scanCriterion (false, "SUCCESS")).1 = false then
        { failure := (cs.foldl scanCriterion (false, "SUCCESS")).1, timeout := true,
          result := some "TIMEOUT",
          retval := (cs.foldl scanCriterion (false, "SUCCESS")).1 || true }
      else
        { failure := (cs.foldl scanCriterion (false, "SUCCESS")).1, timeout := false,
          result := some (cs.foldl scanCriterion (false, "SUCCESS")).2,
          retval := (cs.foldl scanCriterion (false, "SUCCESS")).1 || false }) := rfl

theorem scan_all_success (l : List Criterion) (b : Bool) (r : String)
    (h : ∀ c ∈ l, c.test_status = "SUCCESS") :
    l.foldl scanCriterion (b, r) = (b, r) := by
  induction l with
  | nil => rfl
  | cons c rest ih =>
    have hc : c.test_status = "SUCCESS" := h c (by simp)
    simp only [List.foldl_cons, scanCriterion]
    rw [if_neg (by simp [hc]), if_neg (by simp [hc])]
    exact ih fun d hd => h d (by simp [hd])

/-- Claim C1, counterexample: scan a non-optional FAILURE criterion and then
an ACCEPTABLE one; the `elif` branch of the loop overwrites the latched
`result = "FAILURE"` with `"ACCEPTABLE"`, so the final verdict is not
FAILURE. -/
theorem analyze_latched_cex :
    (analyze_scenario (some [⟨false, "FAILURE"⟩, ⟨true, "ACCEPTABLE"⟩]) false).result
        = some "ACCEPTABLE" ∧
    (analyze_scenario (some [⟨false, "FAILURE"⟩, ⟨true, "ACCEPTABLE"⟩]) false).result
        ≠ some "FAILURE" := by decide

/-- Claim C1, amended: once a non-optional criterion with status neither
SUCCESS nor ACCEPTABLE is scanned, the `failure` flag is latched — the return
value is `true` and the verdict can never become TIMEOUT or SUCCESS — but the
verdict string itself is FAILURE only as long as no criterion scanned later
has status ACCEPTABLE; a later ACCEPTABLE criterion rewrites the verdict to
ACCEPTABLE. -/
theorem analyze_latched_amended (p s : List Criterion) (c : Criterion) (tf : Bool)
    (hc : badCriterion c) :
    (analyze_scenario (some (p ++ c :: s)) tf).retval = true ∧
    (analyze_scenario (some (p ++ c :: s)) tf).failure = true ∧
    ((analyze_scenario (some (p ++ c :: s)) tf).result = some "FAILURE" ∨
      (analyze_scenario (some (p ++ c :: s)) tf).result = some "ACCEPTABLE") ∧
    ((∀ d ∈ s, d.test_status ≠ "ACCEPTABLE") →
      (analyze_scenario (some (p ++ c :: s)) tf).result = some "FAILURE") := by
  have hc' : c.optional = false ∧ c.test_status ≠ "SUCCESS" ∧ c.test_status ≠ "ACCEPTABLE" := hc
  have hfold : (p ++ c :: s).foldl scanCriterion (false, "SUCCESS")
      = s.foldl scanCriterion (true, "FAILURE") := by
    rw [List.foldl_append, List.foldl_cons]
    have : scanCriterion (p.foldl scanCriterion (false, "SUCCESS")) c = (true, "FAILURE") := by
      unfold scanCriterion
      rw [if_pos hc']
    rw [this]
  have h1 : (s.foldl scanCriterion (true, "FAILURE")).1 = true := scan_fst_latched s _
  have hcond : ¬(tf = true ∧ ((p ++ c :: s).foldl scanCriterion (false, "SUCCESS")).1 = false) := by
    rintro ⟨-, h2⟩
    rw [hfold, h1] at h2
    exact Bool.noConfusion h2
  rw [analyze_some_unfold, if_neg hcond]
  refine ⟨by rw [hfold, h1]; rfl, by rw [hfold, h1], ?_, ?_⟩
  · rcases scan_snd_cases s true "FAILURE" (Or.inl rfl) with h | h
    · left; simp only [hfold, h]
    · right; simp only [hfold, h]
  · intro hs
    simp only [hfold, scan_snd_failure s hs]

/-- Claim C1, witness for the amended theorem at a concrete input. -/
theorem analyze_latched_amended_witness :
    (analyze_scenario (some ([] ++ (⟨false, "FAILURE"⟩ : Criterion) :: [])) false).retval = true ∧
    (analyze_scenario (some ([] ++ (⟨false, "FAILURE"⟩ : Criterion) :: [])) false).result
      = some "FAILURE" :=
  ⟨(analyze_latched_amended [] [] ⟨false, "FAILURE"⟩ false (by decide)).1,
   (analyze_latched_amended [] [] ⟨false, "FAILURE"⟩ false (by decide)).2.2.2
     (fun d hd => absurd hd (List.not_mem_nil d))⟩

/-- Claim C3, counterexample: with `test_criteria = None` the source runs
`return True` — the returned fail-or-timeout flag is `true`, not `false`, and
no verdict is ever handed to the reporting collaborator. -/
theorem analyze_no_criteria_cex :
    (analyze_scenario none false).retval = true ∧
    (analyze_scenario none false).retval ≠ false ∧
    (analyze_scenario none false).result = none := by decide

/-- Claim C3, amended: when the scenario was configured with no criteria,
`analyze_scenario` returns `true` — the very value that otherwise means "the
run failed or timed out" — and skips reporting entirely; by contrast, a run
whose criteria all have status SUCCESS and whose timeout never fired returns
`false` with verdict SUCCESS. -/
theorem analyze_no_criteria_amended (tf : Bool) (cs : List Criterion)
    (h : ∀ c ∈ cs, c.test_status = "SUCCESS") :
    (analyze_scenario none tf).retval = true ∧
    (analyze_scenario none tf).result = none ∧
    (analyze_scenario (some cs) false).retval = false ∧
    (analyze_scenario (some cs) false).result = some "SUCCESS" := by
  have hscan := scan_all_success cs false "SUCCESS" h
  have hcond : ¬((false : Bool) = true ∧ (cs.foldl scanCriterion (false, "SUCCESS")).1 = false) := by
    rintro ⟨h2, -⟩
    exact Bool.noConfusion h2
  refine ⟨rfl, rfl, ?_, ?_⟩ <;> rw [analyze_some_unfold, if_neg hcond] <;> simp [hscan]

/-- Claim C3, witness for the amended theorem at a concrete input. -/
theorem analyze_no_criteria_amended_witness :
    (analyze_scenario none false).retval = true ∧
    (analyze_scenario none false).result = none ∧
    (analyze_scenario (some [⟨false, "SUCCESS"⟩]) false).retval = false ∧
    (analyze_scenario (some [⟨false, "SUCCESS"⟩]) false).result = some "SUCCESS" :=
  analyze_no_criteria_amended false [⟨false, "SUCCESS"⟩] (by decide)

/-- Claim C5, counterexample: a criteria set with a non-optional FAILURE
criterion followed by an ACCEPTABLE one, with the timeout fired, yields
verdict ACCEPTABLE — not FAILURE as the claim states. -/
theorem failure_precedence_cex :
    (analyze_scenario (some [⟨false, "FAILURE"⟩, ⟨false, "ACCEPTABLE"⟩]) true).result
        = some "ACCEPTABLE" ∧
    (analyze_scenario (some [⟨false, "FAILURE"⟩, ⟨false, "ACCEPTABLE"⟩]) true).result
        ≠ some "FAILURE" := by decide

/-- Claim C5, amended: the timeout check runs only after the criteria scan
and only when no failure was latched, so the verdict is TIMEOUT exactly when
the timeout fired and no non-optional criterion had a status other than
SUCCESS/ACCEPTABLE.  (With a failing criterion the verdict is never TIMEOUT —
though it is FAILURE only when no later criterion has status ACCEPTABLE, see
the C1 counterexample.) -/
theorem timeout_only_as_fallback (cs : List Criterion) (tf : Bool) :
    (analyze_scenario (some cs) tf).result = some "TIMEOUT" ↔
      tf = true ∧ ∀ c ∈ cs, ¬ badCriterion c := by
  rw [analyze_some_unfold]
  by_cases hcond : tf = true ∧ (cs.foldl scanCriterion (false, "SUCCESS")).1 = false
  · rw [if_pos hcond]
    simp only [true_iff]
    refine ⟨hcond.1, fun c hc hbad => ?_⟩
    have : (cs.foldl scanCriterion (false, "SUCCESS")).1 = true :=
      (scan_fst_iff cs false "SUCCESS").mpr (Or.inr ⟨c, hc, hbad⟩)
    rw [hcond.2] at this
    exact Bool.noConfusion this
  · rw [if_neg hcond]
    simp only []
    constructor
    · intro h
      have := scan_snd_ne_timeout cs false "SUCCESS" (by decide)
      exact absurd (Option.some_injective _ h) this
    · rintro ⟨htf, hnone⟩
      exfalso
      apply hcond
      refine ⟨htf, ?_⟩
      cases hfst : (cs.foldl scanCriterion (false, "SUCCESS")).1 with
      | false => rfl
      | true =>
        rcases (scan_fst_iff cs false "SUCCESS").mp hfst with h | ⟨c, hc, hbad⟩
        · exact Bool.noConfusion h
        · exact absurd hbad (hnone c hc)

theorem leavesL_append (a b : List PtNode) :
    leavesL (a ++ b) = leavesL a ++ leavesL b := by
  induction a using leavesL.induct generalizing b with
  | case1 => simp [leavesL]
  | case2 n rest h ih =>
    simp only [List.cons_append, leavesL, if_pos h, ih]
  | case3 n rest h ih =>
    simp only [List.cons_append, leavesL, if_neg h]
    rw [← List.append_assoc, ih]

theorem flattenWorklist_perm (l : List PtNode) :
    (flattenWorklist l).Perm (leavesL l) := by
  induction l using flattenWorklist.induct with
  | case1 => simp [flattenWorklist, leavesL]
  | case2 n rest h ih =>
    simp only [flattenWorklist, leavesL, if_pos h]
    exact ih.cons n
  | case3 n rest h ih =>
    simp only [flattenWorklist, leavesL, if_neg h]
    refine ih.trans ?_
    rw [leavesL_append, leavesL_append]
    exact List.perm_append_comm

theorem invalidateLeavesL_cons (c : PtNode) (l : List PtNode) :
    invalidateLeavesL (c :: l) = invalidateLeaves c :: invalidateLeavesL l := by
  cases c with
  | node nm p st cs =>
    cases cs with
    | nil => simp [invalidateLeavesL, invalidateLeaves]
    | cons a as => simp [invalidateLeavesL, invalidateLeaves]

theorem leaves_invalidate_status (l : List PtNode) :
    ∀ n ∈ leavesL (invalidateLeavesL l), n.status = PtStatus.INVALID := by
  induction l using invalidateLeavesL.induct with
  | case1 => simp [invalidateLeavesL, leavesL]
  | case2 nm p st rest ih =>
    intro n hn
    rw [show invalidateLeavesL (PtNode.node nm p st [] :: rest)
        = PtNode.node nm p .INVALID [] :: invalidateLeavesL rest from by
      simp [invalidateLeavesL]] at hn
    rw [show leavesL (PtNode.node nm p .INVALID [] :: invalidateLeavesL rest)
        = PtNode.node nm p .INVALID [] :: leavesL (invalidateLeavesL rest) from by
      simp [leavesL, PtNode.children]] at hn
    rcases List.mem_cons.mp hn with rfl | hn'
    · rfl
    · exact ih n hn'
  | case3 nm p st c cs rest ih1 ih2 =>
    intro n hn
    rw [show invalidateLeavesL (PtNode.node nm p st (c :: cs) :: rest)
        = PtNode.node nm p st (invalidateLeavesL (c :: cs)) :: invalidateLeavesL rest from by
      simp [invalidateLeavesL]] at hn
    rw [invalidateLeavesL_cons] at hn
    rw [show leavesL (PtNode.node nm p st (invalidateLeaves c :: invalidateLeavesL cs)
          :: invalidateLeavesL rest)
        = leavesL ((invalidateLeaves c :: invalidateLeavesL cs) ++ invalidateLeavesL rest) from by
      simp [leavesL, PtNode.children]] at hn
    rw [leavesL_append] at hn
    rcases List.mem_append.mp hn with hn' | hn'
    · exact ih1 n (by rw [invalidateLeavesL_cons]; exact hn')
    · exact ih2 n hn'

theorem internal_invalidate (l : List PtNode) :
    internalStatusesL (invalidateLeavesL l) = internalStatusesL l := by
  induction l using invalidateLeavesL.induct with
  | case1 => simp [invalidateLeavesL]
  | case2 nm p st rest ih =>
    rw [show invalidateLeavesL (PtNode.node nm p st [] :: rest)
        = PtNode.node nm p .INVALID [] :: invalidateLeavesL rest from by
      simp [invalidateLeavesL]]
    rw [show internalStatusesL (PtNode.node nm p .INVALID [] :: invalidateLeavesL rest)
        = internalStatusesL (invalidateLeavesL rest) from by simp [internalStatusesL]]
    rw [show internalStatusesL (PtNode.node nm p st [] :: rest)
        = internalStatusesL rest from by simp [internalStatusesL]]
    exact ih
  | case3 nm p st c cs rest ih1 ih2 =>
    rw [show invalidateLeavesL (PtNode.node nm p st (c :: cs) :: rest)
        = PtNode.node nm p st (invalidateLeavesL (c :: cs)) :: invalidateLeavesL rest from by
      simp [invalidateLeavesL]]
    rw [invalidateLeavesL_cons]
    rw [show internalStatusesL (PtNode.node nm p st
          (invalidateLeaves c :: invalidateLeavesL cs) :: invalidateLeavesL rest)
        = st :: (internalStatusesL (invalidateLeaves c :: invalidateLeavesL cs)
            ++ internalStatusesL (invalidateLeavesL rest)) from by simp [internalStatusesL]]
    rw [show internalStatusesL (PtNode.node nm p st (c :: cs) :: rest)
        = st :: (internalStatusesL (c :: cs) ++ internalStatusesL rest) from by
      simp [internalStatusesL]]
    rw [← invalidateLeavesL_cons, ih1, ih2]

theorem invalidateLeavesL_singleton (t : PtNode) :
    invalidateLeavesL [t] = [invalidateLeaves t] := by
  rw [invalidateLeavesL_cons]
  simp [invalidateLeavesL]

/-- Claim C2, counterexample: `terminate` on a tree whose internal `group`
node is nested under the root leaves both composite nodes RUNNING — only the
childless `leaf` is set to INVALID, so not every node of the tree ends up
INVALID. -/
theorem terminate_all_nodes_cex :
    Scenario.terminate nestedTree =
      PtNode.node "root" true .RUNNING
        [.node "group" true .RUNNING [.node "leaf" false .INVALID []]] ∧
    ¬(∀ n ∈ allNodesL [Scenario.terminate nestedTree], n.status = PtStatus.INVALID) := by
  have hterm : Scenario.terminate nestedTree =
      PtNode.node "root" true .RUNNING
        [.node "group" true .RUNNING [.node "leaf" false .INVALID []]] := by
    simp [Scenario.terminate, extract_nodes_from_tree, flattenWorklist, nestedTree,
      invalidateLeaves, invalidateLeavesL, PtNode.children, PtNode.isParallel]
  refine ⟨hterm, fun hall => ?_⟩
  have hmem : PtNode.node "group" true .RUNNING [.node "leaf" false .INVALID []]
      ∈ allNodesL [Scenario.terminate nestedTree] := by
    rw [hterm]
    simp [allNodesL]
  have := hall _ hmem
  exact PtStatus.noConfusion this

/-- Claim C2, amended: `terminate` touches exactly the childless nodes of the
scenario tree (the node list of `_extract_nodes_from_tree` is a permutation
of the leaves), setting each of them to INVALID regardless of prior status,
while every composite (with-children) node keeps its previous status. -/
theorem terminate_invalidates_exactly_leaves (t : PtNode)
    (h : extract_nodes_from_tree t ≠ []) :
    (extract_nodes_from_tree t).Perm (leavesL [t]) ∧
    (∀ n ∈ leavesL [Scenario.terminate t], n.status = PtStatus.INVALID) ∧
    internalStatusesL [Scenario.terminate t] = internalStatusesL [t] := by
  have hterm : Scenario.terminate t = invalidateLeaves t := by
    rcases hex : extract_nodes_from_tree t with _ | ⟨a, l⟩
    · exact absurd hex h
    · simp [Scenario.terminate, hex]
  refine ⟨?_, ?_, ?_⟩
  · have hchar : extract_nodes_from_tree t = flattenWorklist [t]
        ∨ extract_nodes_from_tree t = [] := by
      rcases hfw : flattenWorklist [t] with _ | ⟨a, _ | ⟨b, m⟩⟩
      · right; simp [extract_nodes_from_tree, hfw]
      · by_cases hp : a.isParallel = true
        · right; simp [extract_nodes_from_tree, hfw, hp]
        · left; simp [extract_nodes_from_tree, hfw, hp]
      · left; simp [extract_nodes_from_tree, hfw]
    rcases hchar with heq | heq
    · rw [heq]; exact flattenWorklist_perm [t]
    · exact absurd heq h
  · rw [hterm, ← invalidateLeavesL_singleton]
    exact leaves_invalidate_status [t]
  · rw [hterm, ← invalidateLeavesL_singleton]
    exact internal_invalidate [t]

/-- Claim C2, witness: the amended theorem applied to the concrete nested
tree. -/
theorem terminate_invalidates_exactly_leaves_witness :
    (extract_nodes_from_tree nestedTree).Perm (leavesL [nestedTree]) ∧
    (∀ n ∈ leavesL [Scenario.terminate nestedTree], n.status = PtStatus.INVALID) ∧
    internalStatusesL [Scenario.terminate nestedTree] = internalStatusesL [nestedTree] :=
  terminate_invalidates_exactly_leaves nestedTree (by
    simp [extract_nodes_from_tree, flattenWorklist, nestedTree,
      PtNode.children, PtNode.isParallel])

/-- Claim C7, counterexample: `get_criteria` raises (modelled `none`) when
`criteria_tree` is `None`, and on a criteria tree containing a nested
childless group it returns that group — a non-criterion `Parallel` node —
as one of the "criteria". -/
theorem get_criteria_cex :
    get_criteria none = none ∧
    get_criteria (some criteriaTree0) = some [cLeaf, emptyGroup] ∧
    emptyGroup.isParallel = true ∧ emptyGroup.children = [] := by
  refine ⟨rfl, ?_, rfl, rfl⟩
  simp [get_criteria, extract_nodes_from_tree, flattenWorklist, criteriaTree0, cLeaf,
    emptyGroup, PtNode.children, PtNode.isParallel]

/-- Claim C7, amended: `get_criteria` returns the childless nodes of the
criteria subtree (childless nested groups included), except that a subtree
whose flattening is one single `Parallel` node yields `[]`; with no criteria
tree (`None`) the call raises `AttributeError` (modelled `none`) instead of
returning an empty list. -/
theorem get_criteria_amended (t : PtNode) :
    get_criteria none = none ∧
    (t.children = [] → t.isParallel = true → get_criteria (some t) = some []) ∧
    ∃ l : List PtNode, List.Perm l (leavesL [t]) ∧
      get_criteria (some t) = some (match l with
        | [n] => if PtNode.isParallel n then [] else [n]
        | _ => l) := by
  refine ⟨rfl, ?_, flattenWorklist [t], flattenWorklist_perm [t], rfl⟩
  intro h1 h2
  have hfw : flattenWorklist [t] = [t] := by
    simp [flattenWorklist, h1, List.isEmpty]
  simp [get_criteria, extract_nodes_from_tree, hfw, h2]

/-- Claim C4, counterexample: presenting the same frame (id 42, elapsed
time 1) in two consecutive loop iterations ticks the Execution Tree exactly
once, but `extract_frame` is invoked twice with frame id 42 — not at most
once as claimed. -/
theorem duplicate_frame_cex :
    (run_iterations initMgr [(some (Timestamp.mk 1 42), PtStatus.RUNNING),
        (some (Timestamp.mk 1 42), PtStatus.RUNNING)]).tickCount = 1 ∧
    ((run_iterations initMgr [(some (Timestamp.mk 1 42), PtStatus.RUNNING),
        (some (Timestamp.mk 1 42), PtStatus.RUNNING)]).extractedFrames.count 42 = 2) ∧
    ¬((run_iterations initMgr [(some (Timestamp.mk 1 42), PtStatus.RUNNING),
        (some (Timestamp.mk 1 42), PtStatus.RUNNING)]).extractedFrames.count 42 ≤ 1) := by
  decide

/-- Claim C4, amended: on a duplicated frame the Execution Tree is indeed
ticked exactly once (the `_timestamp_last_run` guard suppresses the second
tick), but `extract_frame` runs once per loop iteration that sees a
timestamp: it is invoked twice for the duplicated frame id when the first
tick leaves the tree RUNNING, and once when the first tick already ended the
run. -/
theorem duplicate_frame_amended (s : MgrState) (t : Timestamp) (st1 st2 : PtStatus)
    (hrun : s.running = true) (hts : s.timestamp_last_run < t.elapsed_seconds) :
    (run_iterations s [(some t, st1), (some t, st2)]).tickCount = s.tickCount + 1 ∧
    (run_iterations s [(some t, st1), (some t, st2)]).extractedFrames
      = s.extractedFrames ++
          (if st1 = PtStatus.RUNNING then [t.frame, t.frame] else [t.frame]) := by
  by_cases hst : st1 = PtStatus.RUNNING
  · subst hst
    simp [run_iterations, loop_iteration, tick_scenario, hrun, hts, lt_self_iff_false]
  · simp [run_iterations, loop_iteration, tick_scenario, hrun, hts, hst, lt_self_iff_false]

/-- Claim C4, witness: the amended theorem at the concrete duplicated frame
(id 42, elapsed 1) from the fresh manager state. -/
theorem duplicate_frame_amended_witness :
    (run_iterations initMgr [(some (Timestamp.mk 1 42), PtStatus.RUNNING),
        (some (Timestamp.mk 1 42), PtStatus.RUNNING)]).tickCount = initMgr.tickCount + 1 ∧
    (run_iterations initMgr [(some (Timestamp.mk 1 42), PtStatus.RUNNING),
        (some (Timestamp.mk 1 42), PtStatus.RUNNING)]).extractedFrames
      = initMgr.extractedFrames ++
          (if PtStatus.RUNNING = PtStatus.RUNNING then [42, 42] else [42]) :=
  duplicate_frame_amended initMgr (Timestamp.mk 1 42) PtStatus.RUNNING PtStatus.RUNNING
    (by decide) (by decide)

theorem candidate_foldl_snd (egoLoc : Vec3) (cs : List Actor)
    (acc : List (Nat × AttrRecord) × Nat) :
    (cs.foldl (candidateStep egoLoc) acc).2 = acc.2 + cs.length := by
  induction cs generalizing acc with
  | nil => simp
  | cons c rest ih =>
    rw [List.foldl_cons, ih]
    simp [candidateStep]
    omega

theorem candidateLoop_snd (egoLoc : Vec3) (cs : List Actor) :
    (candidateLoop egoLoc cs).2 = cs.length := by
  rw [candidateLoop, candidate_foldl_snd]
  simp

theorem keys_dictInsert {α : Type} (d : List (Nat × α)) (k j : Nat) (v : α) :
    (j ∈ (dictInsert d k v).map Prod.fst) ↔ j ∈ d.map Prod.fst ∨ j = k := by
  unfold dictInsert
  by_cases hk : k ∈ d.map Prod.fst
  · rw [if_pos hk]
    have hmap : (d.map (fun p => if p.1 = k then (k, v) else p)).map Prod.fst
        = d.map Prod.fst := by
      rw [List.map_map]
      apply List.map_congr_left
      intro p hp
      by_cases h : p.1 = k
      · simp [h]
      · simp [h]
    rw [hmap]
    constructor
    · exact Or.inl
    · rintro (h | rfl)
      · exact h
      · exact hk
  · rw [if_neg hk, List.map_append]
    simp [List.mem_append]

theorem foldl_dict_keys (P : Actor → Prop) [DecidablePred P] (g : Actor → AttrRecord)
    (cs : List Actor) (j : Nat) (acc : List (Nat × AttrRecord)) :
    (j ∈ (cs.foldl (fun a c => if P c then dictInsert a c.id (g c) else a) acc).map Prod.fst)
      ↔ j ∈ acc.map Prod.fst ∨ ∃ c ∈ cs, P c ∧ c.id = j := by
  induction cs generalizing acc with
  | nil => simp
  | cons c rest ih =>
    rw [List.foldl_cons, ih]
    by_cases hP : P c
    · rw [if_pos hP]
      constructor
      · rintro (hmem | ⟨d, hd, hPd, rfl⟩)
        · rcases (keys_dictInsert _ _ _ _).mp hmem with h | rfl
          · exact Or.inl h
          · exact Or.inr ⟨c, List.mem_cons_self c rest, hP, rfl⟩
        · exact Or.inr ⟨d, List.mem_cons_of_mem c hd, hPd, rfl⟩
      · rintro (hmem | ⟨d, hd, hPd, rfl⟩)
        · exact Or.inl ((keys_dictInsert _ _ _ _).mpr (Or.inl hmem))
        · rcases List.mem_cons.mp hd with rfl | hd'
          · exact Or.inl ((keys_dictInsert _ _ _ _).mpr (Or.inr rfl))
          · exact Or.inr ⟨d, hd', hPd, rfl⟩
    · rw [if_neg hP]
      constructor
      · rintro (hmem | ⟨d, hd, hPd, rfl⟩)
        · exact Or.inl hmem
        · exact Or.inr ⟨d, List.mem_cons_of_mem c hd, hPd, rfl⟩
      · rintro (hmem | ⟨d, hd, hPd, rfl⟩)
        · exact Or.inl hmem
        · rcases List.mem_cons.mp hd with rfl | hd'
          · exact absurd hPd hP
          · exact Or.inr ⟨d, hd', hPd, rfl⟩

theorem candidate_foldl_fst (egoLoc : Vec3) (cs : List Actor)
    (acc : List (Nat × AttrRecord) × Nat) :
    (cs.foldl (candidateStep egoLoc) acc).1
      = cs.foldl
          (fun a c => if distance_lt_100 c.location egoLoc = true then
            dictInsert a c.id (get_actor_attributes c) else a)
          acc.1 := by
  induction cs generalizing acc with
  | nil => simp
  | cons c rest ih =>
    rw [List.foldl_cons, List.foldl_cons, ih]
    by_cases h : distance_lt_100 c.location egoLoc = true
    · simp [candidateStep, h]
    · simp [candidateStep, h]

/-- Claim C8, counterexample: a call with a single pedestrian candidate
queries the ego position three times (the cached transform, the waypoint
lookup, and once inside the pedestrian check) — not exactly once. -/
theorem ego_query_once_cex :
    (extract_frame egoActor world1).egoPosQueries = 3 ∧
    (extract_frame egoActor world1).egoPosQueries ≠ 1 := by decide

/-- Claim C8, amended: the ego transform is sampled once and that cached
position is reused for every vehicle distance check, but the ego position is
queried again for the lane waypoint and once more per pedestrian,
traffic-light and sign candidate: in total `2 + #pedestrians +
#trafficlights + #signs` queries per call, independent of the number of
vehicle candidates. -/
theorem ego_query_count_amended (ego : Actor) (w : World) :
    (extract_frame ego w).egoPosQueries
      = 2 + w.pedestrians.length + w.trafficlights.length + w.signs.length := by
  simp only [extract_frame, candidateLoop_snd]

/-- Claim C9, counterexample: a lone non-ego vehicle within 100 units is not
recorded, because the whole vehicle loop is guarded by `len(vehicles) > 1` —
the claimed "if" direction of the inclusion criterion fails. -/
theorem vehicle_inclusion_cex :
    soloVehicle.id ≠ egoActor.id ∧
    distance_lt_100 soloVehicle.location egoActor.location = true ∧
    soloVehicle ∈ worldSolo.vehicles ∧
    (extract_frame egoActor worldSolo).record.actors = [] := by
  refine ⟨by decide, ?_, by simp [worldSolo], by decide⟩
  norm_num [distance_lt_100, soloVehicle, egoActor]

/-- Claim C9, amended: when the vehicle list has more than one element (as it
always does when the monitored entity itself is among the vehicles), a key is
in the nearby-vehicles map iff some listed vehicle with that id differs from
the ego and lies strictly within 100 units; with at most one vehicle listed
the map is empty regardless.  Unconditionally, the ego never appears in the
nearby-vehicles map, and a key is in the pedestrian / traffic-light / sign
maps iff some listed candidate with that id lies strictly within 100 units. -/
theorem inclusion_iff_amended (ego : Actor) (w : World) (k : Nat) :
    (w.vehicles.length > 1 →
      (k ∈ (extract_frame ego w).record.actors.map Prod.fst ↔
        ∃ v ∈ w.vehicles,
          (v.id ≠ ego.id ∧ distance_lt_100 v.location ego.location = true) ∧ v.id = k)) ∧
    (¬ w.vehicles.length > 1 → (extract_frame ego w).record.actors = []) ∧
    ego.id ∉ (extract_frame ego w).record.actors.map Prod.fst ∧
    (k ∈ (extract_frame ego w).record.pedestrians.map Prod.fst ↔
      ∃ p ∈ w.pedestrians,
        distance_lt_100 p.location ego.location = true ∧ p.id = k) ∧
    (k ∈ (extract_frame ego w).record.trafficlights.map Prod.fst ↔
      ∃ p ∈ w.trafficlights,
        distance_lt_100 p.location ego.location = true ∧ p.id = k) ∧
    (k ∈ (extract_frame ego w).record.signs.map Prod.fst ↔
      ∃ p ∈ w.signs,
        distance_lt_100 p.location ego.location = true ∧ p.id = k) := by
  have hveh : ∀ j : Nat, w.vehicles.length > 1 →
      (j ∈ (extract_frame ego w).record.actors.map Prod.fst ↔
        ∃ v ∈ w.vehicles,
          (v.id ≠ ego.id ∧ distance_lt_100 v.location ego.location = true) ∧ v.id = j) := by
    intro j hlen
    have : (extract_frame ego w).record.actors
        = w.vehicles.foldl (vehicleStep ego.id ego.location) [] := by
      simp [extract_frame, hlen, vehicleLoop]
    rw [this]
    have hiff := foldl_dict_keys
      (fun v => v.id ≠ ego.id ∧ distance_lt_100 v.location ego.location = true)
      get_actor_attributes w.vehicles j []
    simpa using hiff
  have hcand : ∀ (cs : List Actor) (j : Nat),
      (j ∈ ((candidateLoop ego.location cs).1.map Prod.fst) ↔
        ∃ p ∈ cs, distance_lt_100 p.location ego.location = true ∧ p.id = j) := by
    intro cs j
    rw [candidateLoop, candidate_foldl_fst]
    have hiff := foldl_dict_keys
      (fun c => distance_lt_100 c.location ego.location = true)
      get_actor_attributes cs j []
    simpa using hiff
  refine ⟨hveh k, ?_, ?_, ?_, ?_, ?_⟩
  · intro hlen
    simp [extract_frame, hlen]
  · intro hmem
    by_cases hlen : w.vehicles.length > 1
    · rcases ((hveh ego.id hlen).mp hmem) with ⟨v, _, ⟨hne, _⟩, hid⟩
      exact hne hid
    · rw [show (extract_frame ego w).record.actors = [] from by simp [extract_frame, hlen]]
        at hmem
      simp at hmem
  · exact hcand w.pedestrians k
  · exact hcand w.trafficlights k
  · exact hcand w.signs k

theorem dictInsert_fresh {α : Type} (d : List (Nat × α)) (k : Nat) (v : α)
    (h : k ∉ d.map Prod.fst) : dictInsert d k v = d ++ [(k, v)] := by
  unfold dictInsert
  rw [if_neg h]

theorem dictInsert_length_le {α : Type} (d : List (Nat × α)) (k : Nat) (v : α) :
    (dictInsert d k v).length ≤ d.length + 1 := by
  unfold dictInsert
  split
  · simp
  · simp

theorem export_data_noop (s : WriterState) (h : s.framedict.length ≠ 50) :
    export_data s = s := by
  unfold export_data
  rw [if_neg h]

theorem export_data_flush (s : WriterState) (h : s.framedict.length = 50) :
    export_data s
      = { framedict := [], files := s.files ++ [(file_name s.framedict, s.framedict)] } := by
  unfold export_data
  rw [if_pos h]

theorem appendAll_nil (s : WriterState) : appendAll s [] = s := rfl

theorem appendAll_cons (s : WriterState) (p : Nat × FrameRecord)
    (l : List (Nat × FrameRecord)) :
    appendAll s (p :: l) = appendAll (s.append p.1 p.2) l := rfl

theorem appendAll_split (s : WriterState) (a b : List (Nat × FrameRecord)) :
    appendAll s (a ++ b) = appendAll (appendAll s a) b := by
  unfold appendAll
  rw [List.foldl_append]

theorem append_bound (s : WriterState) (f : Nat) (r : FrameRecord)
    (h : s.framedict.length ≤ 49) : ((s.append f r)).framedict.length ≤ 49 := by
  unfold WriterState.append
  have hlen := dictInsert_length_le s.framedict f r
  by_cases h50 : (dictInsert s.framedict f r).length = 50
  · rw [show export_data { s with framedict := dictInsert s.framedict f r }
        = { framedict := [],
            files := s.files ++ [(file_name (dictInsert s.framedict f r),
              dictInsert s.framedict f r)] } from export_data_flush _ h50]
    simp
  · rw [export_data_noop _ h50]
    simp
    omega

theorem appendAll_bound (l : List (Nat × FrameRecord)) (s : WriterState)
    (h : s.framedict.length ≤ 49) : (appendAll s l).framedict.length ≤ 49 := by
  induction l generalizing s with
  | nil => exact h
  | cons p rest ih =>
    rw [appendAll_cons]
    exact ih _ (append_bound s p.1 p.2 h)

theorem appendAll_fill (l : List (Nat × FrameRecord)) (d : List (Nat × FrameRecord))
    (fs : List (String × List (Nat × FrameRecord)))
    (hfresh : ∀ k ∈ l.map Prod.fst, k ∉ d.map Prod.fst)
    (hnodup : (l.map Prod.fst).Nodup)
    (hlen : d.length + l.length ≤ 49) :
    appendAll ⟨d, fs⟩ l = ⟨d ++ l, fs⟩ := by
  induction l generalizing d with
  | nil => simp [appendAll]
  | cons p rest ih =>
    obtain ⟨k, v⟩ := p
    rw [appendAll_cons]
    have hk : k ∉ d.map Prod.fst := hfresh k (by simp)
    have happ : WriterState.append ⟨d, fs⟩ k v = ⟨d ++ [(k, v)], fs⟩ := by
      show export_data ⟨dictInsert d k v, fs⟩ = _
      rw [dictInsert_fresh d k v hk]
      apply export_data_noop
      simp at hlen ⊢
      omega
    have hnodup' := hnodup
    rw [List.map_cons] at hnodup'
    rw [happ, ih (d ++ [(k, v)])]
    · simp
    · intro j hj
      rw [List.map_append]
      simp only [List.mem_append]
      rintro (hjd | hjk)
      · exact hfresh j (by rw [List.map_cons]; exact List.mem_cons_of_mem _ hj) hjd
      · have hjk' : j = k := by simpa using hjk
        exact (List.nodup_cons.mp hnodup').1 (hjk' ▸ hj)
    · exact (List.nodup_cons.mp hnodup').2
    · simp at hlen ⊢
      omega

theorem appendAll_flush (l : List (Nat × FrameRecord)) (d : List (Nat × FrameRecord))
    (fs : List (String × List (Nat × FrameRecord)))
    (hfresh : ∀ k ∈ l.map Prod.fst, k ∉ d.map Prod.fst)
    (hnodup : (l.map Prod.fst).Nodup)
    (hlen : d.length + l.length = 50)
    (hne : l ≠ []) :
    appendAll ⟨d, fs⟩ l = ⟨[], fs ++ [(file_name (d ++ l), d ++ l)]⟩ := by
  induction l generalizing d with
  | nil => exact absurd rfl hne
  | cons p rest ih =>
    obtain ⟨k, v⟩ := p
    rw [appendAll_cons]
    have hk : k ∉ d.map Prod.fst := hfresh k (by simp)
    cases rest with
    | nil =>
      have h49 : d.length = 49 := by simp at hlen; omega
      have happ : WriterState.append ⟨d, fs⟩ k v
          = ⟨[], fs ++ [(file_name (d ++ [(k, v)]), d ++ [(k, v)])]⟩ := by
        show export_data ⟨dictInsert d k v, fs⟩ = _
        rw [dictInsert_fresh d k v hk]
        rw [export_data_flush _ (by simp [h49])]
      rw [happ, appendAll_nil]
    | cons q qs =>
      have happ : WriterState.append ⟨d, fs⟩ k v = ⟨d ++ [(k, v)], fs⟩ := by
        show export_data ⟨dictInsert d k v, fs⟩ = _
        rw [dictInsert_fresh d k v hk]
        apply export_data_noop
        simp at hlen ⊢
        omega
      have hnodup' := hnodup
      rw [List.map_cons] at hnodup'
      rw [happ, ih (d ++ [(k, v)])]
      · simp
      · intro j hj
        rw [List.map_append]
        simp only [List.mem_append]
        rintro (hjd | hjk)
        · exact hfresh j (by rw [List.map_cons]; exact List.mem_cons_of_mem _ hj) hjd
        · have hjk' : j = k := by simpa using hjk
          exact (List.nodup_cons.mp hnodup').1 (hjk' ▸ hj)
      · exact (List.nodup_cons.mp hnodup').2
      · simp at hlen ⊢
        omega
      · exact List.cons_ne_nil q qs

/-- Claim C6: the Windowed Batch Writer with its threshold of 50.  For any
sequence of appends with pairwise-distinct frame ids starting from the fresh
writer: the buffer never exceeds 50 entries after any prefix of appends;
49 appends flush nothing and leave the 49 records buffered; 50 appends
produce exactly one flush, named from the first and last frame ids in the
buffer, and leave the buffer empty; 101 appends produce exactly two flushes
covering the first and second 50 records — non-overlapping id ranges — and
leave the one remaining record buffered. -/
theorem writer_window_behavior (l : List (Nat × FrameRecord))
    (hnodup : (l.map Prod.fst).Nodup) :
    (∀ k : Nat, (appendAll initWriter (l.take k)).framedict.length ≤ 50) ∧
    (l.length = 49 → appendAll initWriter l = ⟨l, []⟩) ∧
    (l.length = 50 → appendAll initWriter l = ⟨[], [(file_name l, l)]⟩) ∧
    (l.length = 101 →
      (appendAll initWriter l).files
          = [(file_name (l.take 50), l.take 50),
             (file_name ((l.drop 50).take 50), (l.drop 50).take 50)] ∧
      (appendAll initWriter l).framedict = l.drop 100 ∧
      ∀ k ∈ (l.take 50).map Prod.fst, k ∉ ((l.drop 50).take 50).map Prod.fst) := by
  refine ⟨?_, ?_, ?_, ?_⟩
  · intro k
    have := appendAll_bound (l.take k) initWriter (by simp [initWriter])
    omega
  · intro h49
    have := appendAll_fill l [] [] (by simp) hnodup (by simp [h49])
    simpa [initWriter] using this
  · intro h50
    have hne : l ≠ [] := by
      intro h
      rw [h] at h50
      simp at h50
    have := appendAll_flush l [] [] (by simp) hnodup (by simp [h50]) hne
    simpa [initWriter] using this
  · intro h101
    have hsplit : l = l.take 50 ++ l.drop 50 := (List.take_append_drop 50 l).symm
    have hsplit2 : l.drop 50 = (l.drop 50).take 50 ++ (l.drop 50).drop 50 :=
      (List.take_append_drop 50 (l.drop 50)).symm
    have hlenA : (l.take 50).length = 50 := by simp [h101]
    have hlenB : ((l.drop 50).take 50).length = 50 := by simp [h101]
    have hlenC : ((l.drop 50).drop 50).length = 1 := by simp [h101]
    have hkeys : l.map Prod.fst
        = (l.take 50).map Prod.fst ++ (l.drop 50).map Prod.fst := by
      conv_lhs => rw [hsplit]
      rw [List.map_append]
    have hnodupA : ((l.take 50).map Prod.fst).Nodup := by
      rw [hkeys] at hnodup
      exact (List.nodup_append.mp hnodup).1
    have hnodupDrop : ((l.drop 50).map Prod.fst).Nodup := by
      rw [hkeys] at hnodup
      exact (List.nodup_append.mp hnodup).2.1
    have hkeys2 : (l.drop 50).map Prod.fst
        = ((l.drop 50).take 50).map Prod.fst ++ ((l.drop 50).drop 50).map Prod.fst := by
      conv_lhs => rw [hsplit2]
      rw [List.map_append]
    have hnodupB : (((l.drop 50).take 50).map Prod.fst).Nodup := by
      rw [hkeys2] at hnodupDrop
      exact (List.nodup_append.mp hnodupDrop).1
    have hstep1 : appendAll initWriter (l.take 50)
        = ⟨[], [(file_name (l.take 50), l.take 50)]⟩ := by
      have := appendAll_flush (l.take 50) [] [] (by simp) hnodupA (by simp [h101])
        (by intro h; rw [h] at hlenA; simp at hlenA)
      simpa [initWriter] using this
    have hstep2 : appendAll (⟨[], [(file_name (l.take 50), l.take 50)]⟩ : WriterState)
        ((l.drop 50).take 50)
        = ⟨[], [(file_name (l.take 50), l.take 50),
                (file_name ((l.drop 50).take 50), (l.drop 50).take 50)]⟩ := by
      have := appendAll_flush ((l.drop 50).take 50) []
        [(file_name (l.take 50), l.take 50)] (by simp) hnodupB (by simp [h101])
        (by intro h; rw [h] at hlenB; simp at hlenB)
      simpa using this
    have hstep3 : appendAll (⟨[], [(file_name (l.take 50), l.take 50),
            (file_name ((l.drop 50).take 50), (l.drop 50).take 50)]⟩ : WriterState)
        ((l.drop 50).drop 50)
        = ⟨(l.drop 50).drop 50,
           [(file_name (l.take 50), l.take 50),
            (file_name ((l.drop 50).take 50), (l.drop 50).take 50)]⟩ := by
      have hnodupC : (((l.drop 50).drop 50).map Prod.fst).Nodup := by
        rw [hkeys2] at hnodupDrop
        exact (List.nodup_append.mp hnodupDrop).2.1
      have := appendAll_fill ((l.drop 50).drop 50) []
        [(file_name (l.take 50), l.take 50),
         (file_name ((l.drop 50).take 50), (l.drop 50).take 50)]
        (by simp) hnodupC (by simp [h101])
      simpa using this
    have hrun : appendAll initWriter l
        = ⟨(l.drop 50).drop 50,
           [(file_name (l.take 50), l.take 50),
            (file_name ((l.drop 50).take 50), (l.drop 50).take 50)]⟩ := by
      conv_lhs => rw [hsplit, hsplit2]
      rw [appendAll_split, appendAll_split, hstep1, hstep2, hstep3]
    have hdrop : (l.drop 50).drop 50 = l.drop 100 := by
      rw [List.drop_drop]
    refine ⟨by rw [hrun], by rw [hrun, hdrop], ?_⟩
    intro k hkA hkB
    rw [hkeys] at hnodup
    have hdisj := (List.nodup_append.mp hnodup).2.2
    exact hdisj hkA (by
      rw [hkeys2]
      exact List.mem_append.mpr (Or.inl hkB))

theorem sqrt_lt_hundred_iff (d : ℚ) :
    Real.sqrt (d : ℝ) < 100 ↔ d < 10000 := by
  rw [Real.sqrt_lt' (by norm_num : (0:ℝ) < 100)]
  rw [show ((100:ℝ)^2) = ((10000:ℚ):ℝ) by norm_num]
  exact Rat.cast_lt

theorem distance_lt_100_iff (l t : Vec3) :
    distance_lt_100 l t = true ↔
      Real.sqrt (((l.x - t.x : ℚ) : ℝ)^2 + ((l.y - t.y : ℚ) : ℝ)^2
        + ((l.z - t.z : ℚ) : ℝ)^2) < 100 := by
  unfold distance_lt_100
  rw [decide_eq_true_eq]
  rw [show (((l.x - t.x : ℚ) : ℝ)^2 + ((l.y - t.y : ℚ) : ℝ)^2 + ((l.z - t.z : ℚ) : ℝ)^2)
      = (((l.x - t.x) * (l.x - t.x) + (l.y - t.y) * (l.y - t.y)
          + (l.z - t.z) * (l.z - t.z) : ℚ) : ℝ) by push_cast; ring]
  exact (sqrt_lt_hundred_iff _).symm

theorem floor_sqrt_ratCast (q : ℚ) (hq : 0 ≤ q) :
    ⌊Real.sqrt (q : ℝ)⌋ = (Nat.sqrt (Int.toNat ⌊q⌋) : ℤ) := by
  have hq' : (0:ℝ) ≤ (q:ℝ) := by exact_mod_cast hq
  set m : ℕ := Int.toNat ⌊q⌋ with hm
  set n : ℕ := Nat.sqrt m with hn
  have hmq : (m : ℝ) ≤ (q : ℝ) := by
    have h1 : ((m : ℤ) : ℚ) ≤ q := by
      rw [hm, Int.toNat_of_nonneg (Int.floor_nonneg.mpr hq)]
      exact Int.floor_le q
    exact_mod_cast h1
  have hqm : (q : ℝ) < (m : ℝ) + 1 := by
    have h1 : q < ((m : ℤ) : ℚ) + 1 := by
      rw [hm, Int.toNat_of_nonneg (Int.floor_nonneg.mpr hq)]
      exact Int.lt_floor_add_one q
    exact_mod_cast h1
  rw [Int.floor_eq_iff]
  push_cast
  constructor
  · rw [Real.le_sqrt (by positivity) hq']
    calc ((n:ℝ))^2 = ((n * n : ℕ) : ℝ) := by push_cast; ring
    _ ≤ (m : ℝ) := by exact_mod_cast Nat.sqrt_le m
    _ ≤ (q : ℝ) := hmq
  · rw [Real.sqrt_lt' (by positivity)]
    calc (q:ℝ) < (m:ℝ) + 1 := hqm
    _ ≤ (((n + 1) * (n + 1) : ℕ) : ℝ) := by
        exact_mod_cast Nat.succ_le_of_lt (Nat.lt_succ_sqrt m)
    _ = ((n:ℝ) + 1)^2 := by push_cast; ring

theorem velocity_kmh_int_eq (l : Vec3) :
    velocity_kmh_int l
      = ⌊(3.6 : ℝ) * Real.sqrt ((l.x:ℝ)^2 + (l.y:ℝ)^2 + (l.z:ℝ)^2)⌋ := by
  have hq : (0:ℚ) ≤ (324/25 : ℚ) * (l.x * l.x + l.y * l.y + l.z * l.z) := by
    have hx := mul_self_nonneg l.x
    have hy := mul_self_nonneg l.y
    have hz := mul_self_nonneg l.z
    have h324 : (0:ℚ) ≤ 324/25 := by norm_num
    exact mul_nonneg h324 (by linarith)
  have key : (3.6 : ℝ) * Real.sqrt ((l.x:ℝ)^2 + (l.y:ℝ)^2 + (l.z:ℝ)^2)
      = Real.sqrt ((((324/25 : ℚ) * (l.x * l.x + l.y * l.y + l.z * l.z) : ℚ)) : ℝ) := by
    have hcast : ((((324/25 : ℚ) * (l.x * l.x + l.y * l.y + l.z * l.z) : ℚ)) : ℝ)
        = (324/25 : ℝ) * ((l.x:ℝ)^2 + (l.y:ℝ)^2 + (l.z:ℝ)^2) := by
      push_cast
      ring
    rw [hcast, Real.sqrt_mul (by norm_num : (0:ℝ) ≤ 324/25)]
    have h36 : Real.sqrt ((324:ℝ)/25) = 3.6 := by
      rw [show ((324:ℝ)/25) = (3.6)^2 by norm_num]
      exact Real.sqrt_sq (by norm_num)
    rw [h36]
  rw [key, floor_sqrt_ratCast _ hq]
  rfl

/-- Claim C10: attribute derivation is a deterministic exact function of the
raw state — the stored speed equals `⌊3.6 · ‖velocity‖⌋` (the truncation of
the nonnegative km/h magnitude), every velocity / position / orientation /
angular-velocity component is truncated toward zero (`ratTrunc`: floor for
nonnegative values, ceiling for negative ones, so magnitudes never grow and
nothing is rounded), and on the spec's instances velocity (10,0,0) stores
speed 36 and position (1.9, −1.9, 0) stores (1, −1, 0). -/
theorem attrs_deterministic (a : Actor) :
    (get_actor_attributes a).velocity_abs
        = ⌊(3.6 : ℝ) * Real.sqrt ((a.velocity.x:ℝ)^2 + (a.velocity.y:ℝ)^2
            + (a.velocity.z:ℝ)^2)⌋ ∧
    (get_actor_attributes a).velocity
        = (ratTrunc a.velocity.x, ratTrunc a.velocity.y, ratTrunc a.velocity.z) ∧
    (get_actor_attributes a).location
        = (ratTrunc a.location.x, ratTrunc a.location.y, ratTrunc a.location.z) ∧
    (get_actor_attributes a).rotation
        = (ratTrunc a.rotation.yaw, ratTrunc a.rotation.roll, ratTrunc a.rotation.pitch) ∧
    (get_actor_attributes a).ang_velocity
        = (ratTrunc a.angular_velocity.x, ratTrunc a.angular_velocity.y,
           ratTrunc a.angular_velocity.z) ∧
    (∀ q : ℚ, 0 ≤ q → ((ratTrunc q : ℚ) ≤ q ∧ q - 1 < (ratTrunc q : ℚ))) ∧
    (∀ q : ℚ, q < 0 → (q ≤ (ratTrunc q : ℚ) ∧ (ratTrunc q : ℚ) < q + 1)) ∧
    (get_actor_attributes demoActor).velocity_abs = 36 ∧
    (get_actor_attributes demoActor).location = (1, -1, 0) := by
  refine ⟨velocity_kmh_int_eq a.velocity, rfl, rfl, rfl, rfl, ?_, ?_, ?_, ?_⟩
  · intro q hq
    unfold ratTrunc
    rw [if_pos hq]
    exact ⟨Int.floor_le q, Int.sub_one_lt_floor q⟩
  · intro q hq
    unfold ratTrunc
    rw [if_neg (not_le.mpr hq)]
    exact ⟨Int.le_ceil q, Int.ceil_lt_add_one q⟩
  · have hv : (get_actor_attributes demoActor).velocity_abs
        = (Nat.sqrt (Int.toNat
            ⌊(324/25 : ℚ) * ((10:ℚ) * 10 + (0:ℚ) * 0 + (0:ℚ) * 0)⌋) : ℤ) := rfl
    rw [hv]
    rw [show ((324/25 : ℚ) * ((10:ℚ) * 10 + (0:ℚ) * 0 + (0:ℚ) * 0)) = ((1296 : ℤ) : ℚ) by
      norm_num]
    rw [Int.floor_intCast]
    rw [show Int.toNat 1296 = 36 * 36 from rfl]
    rw [Nat.sqrt_eq 36]
    rfl
  · have hl : (get_actor_attributes demoActor).location
        = (ratTrunc (19/10 : ℚ), ratTrunc (-(19/10) : ℚ), ratTrunc (0 : ℚ)) := rfl
    rw [hl]
    have h1 : ratTrunc (19/10 : ℚ) = 1 := by
      unfold ratTrunc
      rw [if_pos (by norm_num : (0:ℚ) ≤ 19/10)]
      rw [Int.floor_eq_iff]
      norm_num
    have h2 : ratTrunc (-(19/10) : ℚ) = -1 := by
      unfold ratTrunc
      rw [if_neg (by norm_num : ¬(0:ℚ) ≤ -(19/10))]
      rw [Int.ceil_eq_iff]
      norm_num
    have h3 : ratTrunc (0 : ℚ) = 0 := by
      unfold ratTrunc
      rw [if_pos le_rfl]
      exact Int.floor_zero
    rw [h1, h2, h3]

/-- Claim C6, witness: 50 appends of distinct frame ids 0..49 from the fresh
writer produce exactly the one flush named from the first and last ids and
leave the buffer empty. -/
theorem writer_window_behavior_witness :
    ((((List.range 50).map (fun i => (i, defRecord))).map Prod.fst).Nodup) ∧
    appendAll initWriter ((List.range 50).map (fun i => (i, defRecord)))
      = ⟨[], [(file_name ((List.range 50).map (fun i => (i, defRecord))),
              (List.range 50).map (fun i => (i, defRecord)))]⟩ :=
  ⟨by
    rw [List.map_map]
    simpa [Function.comp] using List.nodup_range 50,
   (writer_window_behavior ((List.range 50).map (fun i => (i, defRecord)))
      (by
        rw [List.map_map]
        simpa [Function.comp] using List.nodup_range 50)).2.2.1 (by simp)⟩

end AV
